import Mathlib

/-!
Formal model of the Spark monitoring notebook's metrics/analysis engine
(`src/monitoring/fabric-spark-monitoring/src/Spark Monitoring
Recommedations.Notebook/notebook-content.py`).

Timestamps, durations and percentages are modelled as rationals; Spark and
pandas DataFrames become lists of structures (nullable columns become
`Option`); Python exceptions become `Except String`. Definitions carry the
source function names where Lean allows it.
-/

/-- Value of an optional configuration column of the metadata row: a boolean,
a string, or SQL null. -/
inductive CfgVal
  | vBool : Bool → CfgVal
  | vStr : String → CfgVal
  | vNull : CfgVal
deriving DecidableEq

/-- Payload of one `SparkListenerTaskEnd` record, as projected by the notebook
(source lines 217-234). The per-task I/O and shuffle metric columns
(`input_mb`, `input_records`, `shuffle_read_mb`, ..., `output_records`) are
omitted: they feed only independent per-column aggregates of the stage summary
that no verified property mentions. `taskId`, `stageId`, `stageAttemptId`,
`executorId` and `failed` are always present in Spark task-end events;
the timestamps and the run time model nullable columns. -/
structure TaskEvent where
  stageId : ℤ
  stageAttemptId : ℤ
  taskId : ℤ
  executorId : ℤ
  launchTime : Option ℚ
  finishTime : Option ℚ
  failed : Bool
  runTimeMs : Option ℚ
deriving DecidableEq

/-- One raw event record of an application run, restricted to the event types
the engine inspects (`properties.Event`). -/
inductive EventRecord
  | appStart (timestampMs : ℚ)
  | appEnd (timestampMs : ℚ)
  | taskEnd (t : TaskEvent)
  | otherEvent
deriving DecidableEq

/-- The metadata row consumed by `generate_recommendations`: each field is
`none` when the column is absent from `metadata_df.columns`, and `some v`
(possibly `CfgVal.vNull`) when the column is present with value `v`. The
fields stand for the columns `spark.native.enabled`,
`spark.synapse.session.tag.HIGH_CONCURRENCY_SESSION_TAG` and `artifactType`. -/
structure Metadata where
  nativeEnabled : Option CfgVal
  highConcurrencyTag : Option CfgVal
  artifactType : Option CfgVal
deriving DecidableEq

/-- First `SparkListenerApplicationStart` timestamp in record order, modelling
`filter(...).limit(1).collect()` (source lines 84-86). -/
def firstAppStart : List EventRecord → Option ℚ
  | [] => none
  | .appStart ts :: _ => some ts
  | _ :: rest => firstAppStart rest

/-- First `SparkListenerApplicationEnd` timestamp in record order (source
lines 88-90). -/
def firstAppEnd : List EventRecord → Option ℚ
  | [] => none
  | .appEnd ts :: _ => some ts
  | _ :: rest => firstAppEnd rest

/-- Model of `compute_application_runtime` (source lines 83-94): difference of
the first end and first start timestamps in seconds, `0.0` when either event
is missing. -/
def compute_application_runtime (events : List EventRecord) : ℚ :=
  match firstAppStart events, firstAppEnd events with
  | some s, some e => (e - s) / 1000
  | _, _ => 0

/-- Ascending order on interval start, as used by `orderBy("start_sec")`
(source line 105). -/
def startLE (a b : ℚ × ℚ) : Prop := a.1 ≤ b.1

instance : DecidableRel startLE := fun a b => inferInstanceAs (Decidable (a.1 ≤ b.1))

instance : IsTotal (ℚ × ℚ) startLE := ⟨fun a b => le_total a.1 b.1⟩

instance : IsTrans (ℚ × ℚ) startLE := ⟨fun _ _ _ h₁ h₂ => le_trans h₁ h₂⟩

/-- Sort the interval rows by start ascending. -/
def sortByStart (l : List (ℚ × ℚ)) : List (ℚ × ℚ) := l.insertionSort startLE

/-- One step of the notebook's merge loop (source lines 110-113), with the
merged list kept in reverse so the Python `merged_intervals[-1]` is the head:
append a fresh interval when the previous merged end is strictly before the
next start, otherwise extend the previous merged end by `max`. -/
def mergeStep (acc : List (ℚ × ℚ)) (p : ℚ × ℚ) : List (ℚ × ℚ) :=
  match acc with
  | [] => [p]
  | (cs, ce) :: tail =>
      if ce < p.1 then p :: (cs, ce) :: tail else (cs, max ce p.2) :: tail

/-- The merged interval list built by the loop over the sorted rows. -/
def mergedIntervals (ivs : List (ℚ × ℚ)) : List (ℚ × ℚ) :=
  (sortByStart ivs).foldl mergeStep []

/-- Sum of `end - start` over a list of intervals. -/
def coverage (l : List (ℚ × ℚ)) : ℚ := (l.map fun p => p.2 - p.1).sum

/-- Total covered seconds returned by the merge loop (source line 115). -/
def mergedCoverage (ivs : List (ℚ × ℚ)) : ℚ := coverage (mergedIntervals ivs)

/-- Sum of the raw interval lengths, before merging. -/
def rawLengthSum (ivs : List (ℚ × ℚ)) : ℚ := (ivs.map fun p => p.2 - p.1).sum

/-- The `(Launch Time, Finish Time)` projection of all task-end records with
`dropna()` and division by 1000 (source lines 98-104). Note the source does
not filter on `failed` here. -/
def taskIntervalPairs (events : List EventRecord) : List (ℚ × ℚ) :=
  events.filterMap fun r =>
    match r with
    | .taskEnd t =>
        match t.launchTime, t.finishTime with
        | some l, some f => some (l / 1000, f / 1000)
        | _, _ => none
    | _ => none

/-- Model of `compute_executor_wall_clock_time` (source lines 97-115): merged
coverage of the intervals of every task-end record with both timestamps. -/
def compute_executor_wall_clock_time (events : List EventRecord) : ℚ :=
  mergedCoverage (taskIntervalPairs events)

/-- Spark `max` over a column: null on an empty group, else the maximum. The
callers below apply it to the non-null values of a nullable column, matching
the null-ignoring Spark aggregate. -/
def sparkMaxList : List ℚ → Option ℚ
  | [] => none
  | d :: ds => some (ds.foldl max d)

/-- Spark `min` over a column, null on an empty group. -/
def sparkMinList : List ℚ → Option ℚ
  | [] => none
  | d :: ds => some (ds.foldl min d)

/-- Spark `avg` over the non-null values, null when there are none. -/
def sparkAvgList : List ℚ → Option ℚ
  | [] => none
  | d :: ds => some ((d + ds.sum) / (ds.length + 1))

/-- Spark `sum` over a nullable column: null when no non-null value exists,
else the sum of the non-null values. -/
def sparkSumList (l : List (Option ℚ)) : Option ℚ :=
  match l.filterMap id with
  | [] => none
  | x :: xs => some (x + xs.sum)

/-- The task-end records of the event log. -/
def taskEndsOf (events : List EventRecord) : List TaskEvent :=
  events.filterMap fun r => match r with | .taskEnd t => some t | _ => none

/-- Model of `tasks_df` (source line 234): task records with
`failed == False`. -/
def nonFailedTasks (events : List EventRecord) : List TaskEvent :=
  (taskEndsOf events).filter fun t => !t.failed

/-- The `duration_sec` column: `Executor Run Time / 1000`, null-preserving
(source line 225). -/
def durationSec (t : TaskEvent) : Option ℚ := t.runTimeMs.map (· / 1000)

/-- Distinct `stage_id` values, in first-appearance order (the grouping keys
of `per_stage_max_df`, source line 291). -/
def stageIdsOf (ts : List TaskEvent) : List ℤ := (ts.map TaskEvent.stageId).dedup

/-- The non-null `duration_sec` values of one stage group. -/
def stageDurations (ts : List TaskEvent) (s : ℤ) : List ℚ :=
  (ts.filter fun t => t.stageId = s).filterMap durationSec

/-- Model of the critical-path computation (source lines 291-293): per-stage
maximum `duration_sec` (null for a stage with only null durations), summed
with the null-ignoring Spark `sum`; null when no stage contributes. -/
def criticalPathSecOpt (ts : List TaskEvent) : Option ℚ :=
  sparkSumList ((stageIdsOf ts).map fun s => sparkMaxList (stageDurations ts s))

/-- Python `int()` applied to a float: truncation toward zero. -/
def pyTrunc (q : ℚ) : ℤ := if q < 0 then -⌊-q⌋ else ⌊q⌋

/-- Python `f-string` fragment `f"{int(x // 60)}m {int(x % 60)}s"` for a
float `x`: `x // 60` is the floor and `x % 60` the remainder with the
divisor's sign. -/
def fmtMinSec (x : ℚ) : String :=
  toString ⌊x / 60⌋ ++ "m " ++ toString (pyTrunc (x - 60 * ⌊x / 60⌋)) ++ "s"

/-- One row of the scaling predictions pandas DataFrame (source
lines 147-152). -/
structure PredRow where
  executorCount : ℤ
  executorMultiplier : String
  estimatedExecutorWallClock : String
  estimatedTotalDuration : String
deriving DecidableEq

/-- The fixed multipliers of the scaling loop (source line 131). -/
def scalingMultipliers : List ℚ := [1, 2, 3, 4, 5]

/-- Model of `new_executors = max(1, int(current_executors * multiplier))`
(source line 132). -/
def newExecutorsFor (currentExecutors : ℤ) (m : ℚ) : ℤ :=
  max 1 (pyTrunc ((currentExecutors : ℚ) * m))

/-- Model of `estimated_executor_sec` (source line 135). -/
def estimatedExecutorSec (criticalPathMs parallelizableMs : ℚ) (newExecutors : ℤ) : ℚ :=
  (criticalPathMs + parallelizableMs / (newExecutors : ℚ)) / 1000

/-- The prediction row appended by one loop iteration when no exception is
raised (source lines 147-152): the projected executor count, the multiplier
as a percentage string, and the two minute-second formatted estimates, the
total blending `max` and `sum` through the overlap weight (lines 138-141). -/
def scalingRowVal (criticalPathMs parallelizableMs driverSec : ℚ) (currentExecutors : ℤ)
    (m : ℚ) : PredRow :=
  let newExecutors := newExecutorsFor currentExecutors m
  let estSec := estimatedExecutorSec criticalPathMs parallelizableMs newExecutors
  let overlapWeight := 1 - driverSec / (driverSec + estSec)
  let appDurationSec := max driverSec estSec + overlapWeight * min driverSec estSec
  { executorCount := newExecutors,
    executorMultiplier := toString (pyTrunc (m * 100)) ++ "%",
    estimatedExecutorWallClock := fmtMinSec estSec,
    estimatedTotalDuration := fmtMinSec appDurationSec }

/-- One iteration of the multiplier loop (source lines 131-152); the
`overlap_weight` division raises `ZeroDivisionError` when
`driver + estimated executor` seconds is zero. -/
def scalingRow (criticalPathMs parallelizableMs driverSec : ℚ) (currentExecutors : ℤ)
    (m : ℚ) : Except String PredRow :=
  if driverSec + estimatedExecutorSec criticalPathMs parallelizableMs
      (newExecutorsFor currentExecutors m) = 0
  then .error "ZeroDivisionError: float division by zero"
  else .ok (scalingRowVal criticalPathMs parallelizableMs driverSec currentExecutors m)

/-- Model of `estimate_runtime_scaling` (source lines 118-173). The
subtraction `parallelizable_ms = total_task_time_ms - critical_path_ms`
(line 121) runs before the falsiness check (line 123), so a null total raises
a `TypeError` there; the assignment of the otherwise unused driver fraction
(line 129) raises `ZeroDivisionError` when `executor + driver` wall clock is
zero; `total_task_time_ms` is the Spark sum of `executor_run_time_ms`, which
equals `runTimeMs` because `duration_sec * 1000` undoes the division. -/
def estimate_runtime_scaling (tasks : List TaskEvent)
    (executorWallClockSec driverWallClockSec : ℚ) (currentExecutors : ℤ)
    (criticalPathSec : ℚ) : Except String (List PredRow) :=
  let criticalPathMs := criticalPathSec * 1000
  match sparkSumList (tasks.map TaskEvent.runTimeMs) with
  | none => .error "TypeError: unsupported operand type for NoneType minus float"
  | some totalTaskTimeMs =>
      let parallelizableMs := totalTaskTimeMs - criticalPathMs
      if totalTaskTimeMs = 0 ∨ executorWallClockSec = 0 then .ok []
      else if executorWallClockSec + driverWallClockSec = 0 then
        .error "ZeroDivisionError: float division by zero"
      else
        scalingMultipliers.mapM
          (scalingRow criticalPathMs parallelizableMs driverWallClockSec currentExecutors)

/-- Text of recommendation rule 1 (source line 184). -/
def recText1 : String :=
  "This Spark job is driver-heavy (driver time > 70%). Consider parallelizing more operations to offload work to executors."

/-- Text of recommendation rule 2 (source line 189). -/
def recText2 : String :=
  "Native Execution Engine (NEE) is disabled, but executors are doing significant work. Enable NEE for performance gains without added cost."

/-- Text of recommendation rule 3 (source line 192). -/
def recText3 : String :=
  "This appears to be Python-native code running entirely on the driver. Run on Fabric Python kernel or refactor into Spark code for better parallelism."

/-- Text of recommendation rule 4 (source line 198). -/
def recText4 : String :=
  "High Concurrency is disabled for Fabric Notebook. Consider enabling High Concurrency mode to pack more notebooks into fewer sessions and save costs."

/-- Text of the default record emitted when no rule fires (source line 204). -/
def recTextDefault : String := "No performance recommendations found."

/-- Rule 1 (source lines 183-184). -/
def rule1Recs (driverPct : ℚ) : List String :=
  if driverPct > 70 then [recText1] else []

/-- Rule 2 (source lines 186-189): fires only when the `spark.native.enabled`
column is present, its value is `False` or `"false"` (null does not count),
and the executor percentage exceeds 50. -/
def rule2Recs (executorPct : ℚ) (md : Metadata) : List String :=
  match md.nativeEnabled with
  | some v =>
      if (v = .vBool false ∨ v = .vStr "false") ∧ executorPct > 50 then [recText2] else []
  | none => []

/-- Rule 3 (source lines 191-192). -/
def rule3Recs (driverPct : ℚ) : List String :=
  if driverPct > 99 then [recText3] else []

/-- Rule 4 (source lines 194-198): needs both columns present; the artifact
type read is replaced by Python `None` unless `driver_pct < 98`; the
high-concurrency value may be `False`, `"false"` or null. -/
def rule4Recs (driverPct : ℚ) (md : Metadata) : List String :=
  match md.highConcurrencyTag, md.artifactType with
  | some hv, some av =>
      let artifactVal : Option CfgVal := if driverPct < 98 then some av else none
      if (hv = .vBool false ∨ hv = .vStr "false" ∨ hv = .vNull) ∧
          artifactVal = some (.vStr "SynapseNotebook")
      then [recText4] else []
  | _, _ => []

/-- Model of `generate_recommendations` (source lines 177-211): the
percentage computations raise `ZeroDivisionError` when the application
duration is zero; otherwise the firing rules' texts are emitted in rule
order, collapsed to the single default record when none fires. -/
def generate_recommendations (appId : String)
    (appDurationSec driverWallClockSec executorWallClockSec : ℚ) (md : Metadata) :
    Except String (List (String × String)) :=
  if appDurationSec = 0 then .error "ZeroDivisionError: float division by zero"
  else
    let driverPct := 100 * driverWallClockSec / appDurationSec
    let executorPct := 100 * executorWallClockSec / appDurationSec
    let recs := rule1Recs driverPct ++ rule2Recs executorPct md ++
      rule3Recs driverPct ++ rule4Recs driverPct md
    if recs.isEmpty then .ok [(appId, recTextDefault)]
    else .ok (recs.map fun r => (appId, r))

/-- One row of the final per-stage summary: the statistical aggregates of
`stage_summary_df` joined with the window aggregates of `stage_duration_df`
on the grouping key (source lines 236-277). The join is total here because
both sides group the same `tasks_df` by the same key. The approximate 75th
percentile and the I/O and shuffle per-column aggregates are omitted as
independent aggregates no verified property mentions. -/
structure StageRow where
  stageId : ℤ
  stageAttemptId : ℤ
  numTasks : ℕ
  successfulTasks : ℕ
  failedTasks : ℕ
  minDurationSec : Option ℚ
  maxDurationSec : Option ℚ
  avgDurationSec : Option ℚ
  minLaunchTime : Option ℚ
  maxFinishTime : Option ℚ
  numExecutors : ℕ
  stageExecutionTimeSec : Option ℚ
deriving DecidableEq

/-- Distinct `(stage_id, stage_attempt_id)` grouping keys in first-appearance
order. -/
def stageKeysOf (ts : List TaskEvent) : List (ℤ × ℤ) :=
  (ts.map fun t => (t.stageId, t.stageAttemptId)).dedup

/-- The rows of one grouping key. -/
def stageGroup (ts : List TaskEvent) (k : ℤ × ℤ) : List TaskEvent :=
  ts.filter fun t => (t.stageId, t.stageAttemptId) = k

/-- The aggregates of one grouping key (source lines 236-277): task counts,
duration statistics, the stage execution window `(max_finish - min_launch) /
1000` (null when a timestamp aggregate is null) and the distinct executor
count. `num_tasks` is `count("task_id")`, which counts every group row since
`taskId` is never null. -/
def mkStageRow (ts : List TaskEvent) (k : ℤ × ℤ) : StageRow :=
  let g := stageGroup ts k
  let durations := g.filterMap durationSec
  let minL := sparkMinList (g.filterMap TaskEvent.launchTime)
  let maxF := sparkMaxList (g.filterMap TaskEvent.finishTime)
  { stageId := k.1
    stageAttemptId := k.2
    numTasks := g.length
    successfulTasks := (g.filter fun t => t.failed = false).length
    failedTasks := (g.filter fun t => t.failed = true).length
    minDurationSec := sparkMinList durations
    maxDurationSec := sparkMaxList durations
    avgDurationSec := sparkAvgList durations
    minLaunchTime := minL
    maxFinishTime := maxF
    numExecutors := (g.map TaskEvent.executorId).dedup.length
    stageExecutionTimeSec :=
      match minL, maxF with
      | some a, some b => some ((b - a) / 1000)
      | _, _ => none }

/-- The joined per-stage summary rows, one per grouping key of the non-failed
tasks. -/
def stageSummaryRows (events : List EventRecord) : List StageRow :=
  (stageKeysOf (nonFailedTasks events)).map (mkStageRow (nonFailedTasks events))

/-- The nullable window column viewed with null below every value, matching
Spark `desc` ordering which puts nulls last. -/
def winKey (r : StageRow) : WithBot ℚ := r.stageExecutionTimeSec

/-- Descending order on the stage execution window, nulls last, as produced
by `orderBy(col("stage_execution_time_sec").desc())` (source line 277). -/
def stageGE (a b : StageRow) : Prop := winKey b ≤ winKey a

instance : DecidableRel stageGE := fun a b =>
  inferInstanceAs (Decidable (winKey b ≤ winKey a))

instance : IsTotal StageRow stageGE := ⟨fun a b => le_total (winKey b) (winKey a)⟩

instance : IsTrans StageRow stageGE := ⟨fun _ _ _ h₁ h₂ => le_trans h₂ h₁⟩

/-- Model of `final_summary_df` (source lines 275-277): the joined rows sorted
descending by window length, truncated to the top 5. -/
def finalSummary (events : List EventRecord) : List StageRow :=
  ((stageSummaryRows events).insertionSort stageGE).take 5

/-- One row of the per-application metrics DataFrame (source lines 327-337). -/
structure MetricRow where
  appId : String
  metric : String
  value : ℚ
deriving DecidableEq

/-- Python `round(q, 2)` on a float, as rounding to 2 decimals. Python rounds
half to even while `round` here rounds half up; the difference surfaces only
at exact half-cent ties, which no verified property depends on. -/
def round2 (q : ℚ) : ℚ := ((round (q * 100) : ℤ) : ℚ) / 100

/-- Model of the metrics list literal (source lines 316-327) with Python's
left-to-right evaluation order: the executor-percentage division raises
`ZeroDivisionError` when the application duration is `0.0`, and
`round(None, 2)` on a null critical path then raises a `TypeError`. -/
def metricsRows (appId : String)
    (appDurationSec executorWallClockSec driverWallClockSec : ℚ)
    (maxExecutors : ℕ) (criticalPathSec : Option ℚ) : Except String (List MetricRow) :=
  if appDurationSec = 0 then .error "ZeroDivisionError: float division by zero"
  else
    match criticalPathSec with
    | none => .error "TypeError: NoneType does not define a round method"
    | some c =>
        .ok [⟨appId, "Application Duration (sec)", round2 appDurationSec⟩,
             ⟨appId, "Executor Wall Clock Time (sec)", round2 executorWallClockSec⟩,
             ⟨appId, "Driver Wall Clock Time (sec)", round2 driverWallClockSec⟩,
             ⟨appId, "Executor Time % of App Time",
               round2 (100 * executorWallClockSec / appDurationSec)⟩,
             ⟨appId, "Driver Time % of App Time",
               round2 (100 * driverWallClockSec / appDurationSec)⟩,
             ⟨appId, "Max Executors", (maxExecutors : ℚ)⟩,
             ⟨appId, "Critical Path Time (sec)", round2 c⟩]

/-- The four result collections of one application run. -/
structure RunResults where
  summary : List StageRow
  metrics : List MetricRow
  predictions : List PredRow
  recommendations : List (String × String)
deriving DecidableEq

/-- Model of `compute_stage_task_summary` (source lines 214-344), sequencing
the computations in the source's evaluation order: the lazy summary ranking,
the eager duration and wall-clock scalars, the scaling predictions (run only
when the critical path is truthy, i.e. non-null and nonzero; otherwise an
empty prediction set with a diagnostic print), then the metrics list, then
the recommendations. Any raised exception propagates to the caller. -/
def compute_stage_task_summary (events : List EventRecord) (md : Metadata)
    (appId : String) : Except String RunResults :=
  let ts := nonFailedTasks events
  let summaryRows := finalSummary events
  let appDurationSec := compute_application_runtime events
  let executorSec := compute_executor_wall_clock_time events
  let driverSec := appDurationSec - executorSec
  let maxExecutors := (ts.map TaskEvent.executorId).dedup.length
  let criticalOpt := criticalPathSecOpt ts
  let predsE : Except String (List PredRow) :=
    match criticalOpt with
    | some c =>
        if c = 0 then .ok []
        else estimate_runtime_scaling ts executorSec driverSec (maxExecutors : ℤ) c
    | none => .ok []
  predsE.bind fun preds =>
    (metricsRows appId appDurationSec executorSec driverSec maxExecutors criticalOpt).bind
      fun ms =>
        (generate_recommendations appId appDurationSec driverSec executorSec md).bind
          fun recs => .ok ⟨summaryRows, ms, preds, recs⟩

/-- One application run of the batch: its id, its filtered event log and its
metadata row. -/
structure App where
  id : String
  events : List EventRecord
  md : Metadata
deriving DecidableEq

/-- What the batch loop records for one application: either an error row
(application id and message) appended to the summary list, or the four result
collections. -/
inductive RunOutcome
  | errRow (appId msg : String)
  | results (appId : String) (r : RunResults)
deriving DecidableEq

/-- Model of the per-application loop body (source lines 443-472): a missing
`SparkListenerApplicationStart` event yields an error row and `continue`; any
exception raised by `compute_stage_task_summary` is caught and converted to
an error row carrying the application id and message. -/
def processApp (a : App) : RunOutcome :=
  match firstAppStart a.events with
  | none => .errRow a.id "Missing SparkListenerApplicationStart event"
  | some _ =>
      match compute_stage_task_summary a.events a.md a.id with
      | .ok r => .results a.id r
      | .error e => .errRow a.id e

/-- The whole batch: each application processed independently, in order. -/
def processBatch (apps : List App) : List RunOutcome := apps.map processApp

/-- Whether the outcome is an error row. -/
def RunOutcome.isErrRow : RunOutcome → Bool
  | .errRow _ _ => true
  | .results _ _ => false

/-- The metric rows an outcome contributes to the concatenated metrics
output; an error row contributes none. -/
def RunOutcome.metricRows : RunOutcome → List MetricRow
  | .errRow _ _ => []
  | .results _ r => r.metrics

/-- Modelled from the spec (section 4.1, Interval Merger): the running merged
interval `[cs, ce]` state machine, closing the current interval when the next
start lies strictly beyond `ce` and extending `ce` by `max` otherwise, and
summing the closed lengths. Written independently of the notebook's loop for
refinement comparison. -/
def covFrom (cs ce : ℚ) : List (ℚ × ℚ) → ℚ
  | [] => ce - cs
  | (s, e) :: rest =>
      if ce < s then (ce - cs) + covFrom s e rest else covFrom cs (max ce e) rest

/-- Modelled from the spec (section 4.1): total coverage of the union of the
intervals, via the state machine over the rows sorted by start. -/
def intervalMergerTotal (ivs : List (ℚ × ℚ)) : ℚ :=
  match sortByStart ivs with
  | [] => 0
  | (s, e) :: rest => covFrom s e rest

/-- Modelled from the spec (section 4.2): the claimed executor wall clock,
the Interval Merger total over the non-failed tasks' interval pairs only,
for refinement comparison with `compute_executor_wall_clock_time`. -/
def executorWallClockNonFailedSpec (events : List EventRecord) : ℚ :=
  intervalMergerTotal ((nonFailedTasks events).filterMap fun t =>
    match t.launchTime, t.finishTime with
    | some l, some f => some (l / 1000, f / 1000)
    | _, _ => none)

/-- Two closed intervals overlap or touch: they share at least one point. -/
def touchOrOverlap (a b : ℚ × ℚ) : Prop := max a.1 b.1 ≤ min a.2 b.2

instance (a b : ℚ × ℚ) : Decidable (touchOrOverlap a b) :=
  inferInstanceAs (Decidable (max a.1 b.1 ≤ min a.2 b.2))

/-- Two intervals properly overlap: they share a segment of positive
length. -/
def properOverlap (a b : ℚ × ℚ) : Prop := max a.1 b.1 < min a.2 b.2

instance (a b : ℚ × ℚ) : Decidable (properOverlap a b) :=
  inferInstanceAs (Decidable (max a.1 b.1 < min a.2 b.2))

/-- Total coverage of an already sorted interval list, read off the state
machine: the head seeds the running interval. `intervalMergerTotal` is this
applied after sorting. -/
def mergeTotalSorted : List (ℚ × ℚ) → ℚ
  | [] => 0
  | (s, e) :: rest => covFrom s e rest

/-- Concrete fixtures used by witnesses and counterexamples. A successful
task with interval `[0 ms, 1000 ms]` and run time 1000 ms. -/
def exTaskOk : TaskEvent := ⟨0, 0, 0, 1, some 0, some 1000, false, some 1000⟩

/-- A failed task with interval `[10000 ms, 11000 ms]`. -/
def exTaskFailed : TaskEvent := ⟨0, 0, 1, 1, some 10000, some 11000, true, some 900⟩

/-- Event log with one successful and one failed task (both with disjoint
one-second intervals). -/
def exEventsC1 : List EventRecord := [.taskEnd exTaskOk, .taskEnd exTaskFailed]

/-- Metadata with the high-concurrency column present and false and the
artifact type present as an interactive notebook. -/
def exMetadataC3 : Metadata := ⟨none, some (.vBool false), some (.vStr "SynapseNotebook")⟩

/-- Metadata with all three optional columns absent. -/
def exMetadataEmpty : Metadata := ⟨none, none, none⟩

/-- Event log of a run whose only task failed: the application lifecycle is
present (runtime 100 s) but no stage has any successful task. -/
def exEventsC2 : List EventRecord := [.appStart 0, .appEnd 100000, .taskEnd exTaskFailed]

/-- Event log of a run with a start event but no end event: its application
runtime is reported as `0.0`. -/
def exEventsC5 : List EventRecord := [.appStart 0, .taskEnd exTaskOk]

/-- The application of `exEventsC5`, as one batch entry. -/
def exAppC5 : App := ⟨"appC5", exEventsC5, exMetadataEmpty⟩

/-- Event log of a healthy run with a single successful task. -/
def exEventsOk : List EventRecord := [.appStart 0, .appEnd 100000, .taskEnd exTaskOk]

/-! ## Interval merger: loop/state-machine equivalence -/

theorem coverage_cons (p : ℚ × ℚ) (l : List (ℚ × ℚ)) :
    coverage (p :: l) = (p.2 - p.1) + coverage l := by
  simp [coverage]

theorem rawLengthSum_cons (p : ℚ × ℚ) (l : List (ℚ × ℚ)) :
    rawLengthSum (p :: l) = (p.2 - p.1) + rawLengthSum l := by
  simp [rawLengthSum]

theorem coverage_foldl_mergeStep (l : List (ℚ × ℚ)) :
    ∀ cs ce : ℚ, ∀ acc : List (ℚ × ℚ),
      coverage (l.foldl mergeStep ((cs, ce) :: acc)) = coverage acc + covFrom cs ce l := by
  induction l with
  | nil =>
      intro cs ce acc
      simp only [List.foldl_nil, covFrom, coverage_cons]
      ring
  | cons p rest ih =>
      intro cs ce acc
      obtain ⟨s, e⟩ := p
      simp only [List.foldl_cons, mergeStep, covFrom]
      by_cases h : ce < s
      · rw [if_pos h, if_pos h, ih s e ((cs, ce) :: acc), coverage_cons]
        ring
      · rw [if_neg h, if_neg h, ih cs (max ce e) acc]

theorem mergedCoverage_eq_mergeTotalSorted (ivs : List (ℚ × ℚ)) :
    mergedCoverage ivs = mergeTotalSorted (sortByStart ivs) := by
  unfold mergedCoverage mergedIntervals mergeTotalSorted
  cases h : sortByStart ivs with
  | nil => simp [coverage]
  | cons p rest =>
      obtain ⟨s, e⟩ := p
      rw [List.foldl_cons]
      have hstep : mergeStep [] (s, e) = [(s, e)] := rfl
      rw [hstep, coverage_foldl_mergeStep rest s e []]
      simp [coverage]

theorem intervalMergerTotal_eq (ivs : List (ℚ × ℚ)) :
    intervalMergerTotal ivs = mergeTotalSorted (sortByStart ivs) := by
  unfold intervalMergerTotal mergeTotalSorted
  cases sortByStart ivs with
  | nil => rfl
  | cons p rest => obtain ⟨s, e⟩ := p; rfl

theorem mergedCoverage_eq_intervalMergerTotal (ivs : List (ℚ × ℚ)) :
    mergedCoverage ivs = intervalMergerTotal ivs := by
  rw [mergedCoverage_eq_mergeTotalSorted, intervalMergerTotal_eq]

/-! ## Interval merger: coverage bounds -/

theorem covFrom_le_raw (l : List (ℚ × ℚ)) :
    (∀ p ∈ l, p.1 ≤ p.2) →
    ∀ cs ce : ℚ, covFrom cs ce l ≤ (ce - cs) + rawLengthSum l := by
  induction l with
  | nil =>
      intro _ cs ce
      simp [covFrom, rawLengthSum]
  | cons p rest ih =>
      intro hl cs ce
      obtain ⟨s, e⟩ := p
      have hse : s ≤ e := hl (s, e) (List.mem_cons_self _ _)
      have hl' : ∀ q ∈ rest, q.1 ≤ q.2 := fun q hq => hl q (List.mem_cons_of_mem _ hq)
      rw [rawLengthSum_cons]
      by_cases h : ce < s
      · simp only [covFrom, if_pos h]
        have := ih hl' s e
        simp only at this ⊢
        linarith
      · simp only [covFrom, if_neg h]
        push_neg at h
        have := ih hl' cs (max ce e)
        have hmax : max ce e ≤ ce + (e - s) := max_le (by linarith) (by linarith)
        simp only at this ⊢
        linarith

theorem head_min_inv (s e : ℚ) (rest : List (ℚ × ℚ))
    (hsorthead : ∀ q ∈ rest, s ≤ q.1)
    (hovhead : ∀ q ∈ rest, ¬ properOverlap (s, e) q) :
    ∀ q ∈ rest, min e q.2 ≤ q.1 := by
  intro q hq
  have h1 : ¬ max s q.1 < min e q.2 := hovhead q hq
  push_neg at h1
  have h2 : max s q.1 = q.1 := max_eq_right (hsorthead q hq)
  rw [h2] at h1
  exact h1

theorem covFrom_eq_raw (l : List (ℚ × ℚ)) :
    (∀ p ∈ l, p.1 ≤ p.2) →
    l.Pairwise (fun a b => a.1 ≤ b.1) →
    l.Pairwise (fun a b => ¬ properOverlap a b) →
    ∀ cs ce : ℚ, cs ≤ ce → (∀ p ∈ l, min ce p.2 ≤ p.1) →
    covFrom cs ce l = (ce - cs) + rawLengthSum l := by
  induction l with
  | nil =>
      intro _ _ _ cs ce _ _
      simp [covFrom, rawLengthSum]
  | cons p rest ih =>
      intro hl hsort hov cs ce hcsce hmin
      obtain ⟨s, e⟩ := p
      have hse : s ≤ e := hl (s, e) (List.mem_cons_self _ _)
      have hl' : ∀ q ∈ rest, q.1 ≤ q.2 := fun q hq => hl q (List.mem_cons_of_mem _ hq)
      have hsort' := hsort.of_cons
      have hov' := hov.of_cons
      have hsorthead : ∀ q ∈ rest, s ≤ q.1 := fun q hq =>
        (List.pairwise_cons.mp hsort).1 q hq
      have hinv_e : ∀ q ∈ rest, min e q.2 ≤ q.1 :=
        head_min_inv s e rest hsorthead (List.pairwise_cons.mp hov).1
      have hminhead : min ce e ≤ s := hmin (s, e) (List.mem_cons_self _ _)
      rw [rawLengthSum_cons]
      by_cases h : ce < s
      · simp only [covFrom, if_pos h]
        rw [ih hl' hsort' hov' s e hse hinv_e]
      · simp only [covFrom, if_neg h]
        push_neg at h
        rcases min_le_iff.mp hminhead with hce | he
        · have hces : ce = s := le_antisymm hce h
          have hmaxe : max ce e = e := max_eq_right (by linarith)
          rw [hmaxe, ih hl' hsort' hov' cs e (by linarith) hinv_e, hces]
          ring
        · have hes : e = s := le_antisymm he hse
          have hmaxe : max ce e = ce := max_eq_left (by linarith)
          have hinv_ce : ∀ q ∈ rest, min ce q.2 ≤ q.1 := fun q hq =>
            hmin q (List.mem_cons_of_mem _ hq)
          rw [hmaxe, ih hl' hsort' hov' cs ce hcsce hinv_ce, hes]
          ring

theorem covFrom_lt_of_cross (l : List (ℚ × ℚ)) :
    (∀ p ∈ l, p.1 ≤ p.2) →
    l.Pairwise (fun a b => a.1 ≤ b.1) →
    ∀ cs ce : ℚ, (∃ q ∈ l, q.1 < min ce q.2) →
    covFrom cs ce l < (ce - cs) + rawLengthSum l := by
  induction l with
  | nil =>
      intro _ _ cs ce hex
      simp at hex
  | cons p rest ih =>
      intro hl hsort cs ce hex
      obtain ⟨s, e⟩ := p
      have hse : s ≤ e := hl (s, e) (List.mem_cons_self _ _)
      have hl' : ∀ q ∈ rest, q.1 ≤ q.2 := fun q hq => hl q (List.mem_cons_of_mem _ hq)
      have hsort' := hsort.of_cons
      have hsorthead : ∀ q ∈ rest, s ≤ q.1 := fun q hq =>
        (List.pairwise_cons.mp hsort).1 q hq
      rw [rawLengthSum_cons]
      rcases hex with ⟨q, hq, hqlt⟩
      rcases List.mem_cons.mp hq with rfl | hqrest
      · have hsce : s < ce := lt_of_lt_of_le hqlt (min_le_left _ _)
        have hsse : s < e := lt_of_lt_of_le hqlt (min_le_right _ _)
        have hnot : ¬ ce < s := by linarith
        simp only [covFrom, if_neg hnot]
        have hA := covFrom_le_raw rest hl' cs (max ce e)
        have hmax : max ce e < ce + (e - s) := by
          rcases max_cases ce e with ⟨hm, hle⟩ | ⟨hm, hlt⟩ <;> rw [hm] <;> linarith
        linarith
      · by_cases h : ce < s
        · have h1 : s ≤ q.1 := hsorthead q hqrest
          have h2 : q.1 < ce := lt_of_lt_of_le hqlt (min_le_left _ _)
          linarith
        · simp only [covFrom, if_neg h]
          push_neg at h
          have hwit : ∃ q ∈ rest, q.1 < min (max ce e) q.2 :=
            ⟨q, hqrest, lt_of_lt_of_le hqlt (min_le_min (le_max_left _ _) le_rfl)⟩
          have := ih hl' hsort' cs (max ce e) hwit
          have hmax : max ce e ≤ ce + (e - s) := max_le (by linarith) (by linarith)
          linarith

theorem covFrom_lt_of_overlap (l : List (ℚ × ℚ)) :
    (∀ p ∈ l, p.1 ≤ p.2) →
    l.Pairwise (fun a b => a.1 ≤ b.1) →
    ¬ l.Pairwise (fun a b => ¬ properOverlap a b) →
    ∀ cs ce : ℚ, covFrom cs ce l < (ce - cs) + rawLengthSum l := by
  induction l with
  | nil =>
      intro _ _ hnp
      exact absurd List.Pairwise.nil hnp
  | cons p rest ih =>
      intro hl hsort hnp cs ce
      obtain ⟨s, e⟩ := p
      have hse : s ≤ e := hl (s, e) (List.mem_cons_self _ _)
      have hl' : ∀ q ∈ rest, q.1 ≤ q.2 := fun q hq => hl q (List.mem_cons_of_mem _ hq)
      have hsort' := hsort.of_cons
      have hsorthead : ∀ q ∈ rest, s ≤ q.1 := fun q hq =>
        (List.pairwise_cons.mp hsort).1 q hq
      rw [rawLengthSum_cons]
      by_cases hA : ∀ q ∈ rest, ¬ properOverlap (s, e) q
      · have hnp' : ¬ rest.Pairwise (fun a b => ¬ properOverlap a b) := fun hP =>
          hnp (List.pairwise_cons.mpr ⟨hA, hP⟩)
        by_cases h : ce < s
        · simp only [covFrom, if_pos h]
          have := ih hl' hsort' hnp' s e
          linarith
        · simp only [covFrom, if_neg h]
          push_neg at h
          have := ih hl' hsort' hnp' cs (max ce e)
          have hmax : max ce e ≤ ce + (e - s) := max_le (by linarith) (by linarith)
          linarith
      · push_neg at hA
        rcases hA with ⟨q, hq, hov⟩
        have hov' : max s q.1 < min e q.2 := hov
        have hsq : s ≤ q.1 := hsorthead q hq
        have hq1 : q.1 < min e q.2 := by
          rw [max_eq_right hsq] at hov'
          exact hov'
        by_cases h : ce < s
        · simp only [covFrom, if_pos h]
          have := covFrom_lt_of_cross rest hl' hsort' s e ⟨q, hq, hq1⟩
          linarith
        · simp only [covFrom, if_neg h]
          push_neg at h
          have hwit : q.1 < min (max ce e) q.2 :=
            lt_of_lt_of_le hq1 (min_le_min (le_max_right _ _) le_rfl)
          have := covFrom_lt_of_cross rest hl' hsort' cs (max ce e) ⟨q, hq, hwit⟩
          have hmax : max ce e ≤ ce + (e - s) := max_le (by linarith) (by linarith)
          linarith

theorem sortByStart_perm (ivs : List (ℚ × ℚ)) : List.Perm (sortByStart ivs) ivs :=
  List.perm_insertionSort startLE ivs

theorem sortByStart_sorted (ivs : List (ℚ × ℚ)) :
    (sortByStart ivs).Pairwise fun a b : ℚ × ℚ => a.1 ≤ b.1 :=
  List.sorted_insertionSort startLE ivs

theorem properOverlap_symm {a b : ℚ × ℚ} (h : properOverlap a b) : properOverlap b a := by
  unfold properOverlap at *
  rw [max_comm, min_comm]
  exact h

theorem mergeTotalSorted_le (L : List (ℚ × ℚ))
    (hL : ∀ p ∈ L, p.1 ≤ p.2) :
    mergeTotalSorted L ≤ rawLengthSum L := by
  cases L with
  | nil => simp [mergeTotalSorted, rawLengthSum]
  | cons p rest =>
      obtain ⟨s, e⟩ := p
      have hl' : ∀ q ∈ rest, q.1 ≤ q.2 := fun q hq => hL q (List.mem_cons_of_mem _ hq)
      have := covFrom_le_raw rest hl' s e
      rw [rawLengthSum_cons]
      simpa [mergeTotalSorted] using this

theorem mergeTotalSorted_eq_iff (L : List (ℚ × ℚ))
    (hL : ∀ p ∈ L, p.1 ≤ p.2)
    (hsorted : L.Pairwise fun a b : ℚ × ℚ => a.1 ≤ b.1) :
    mergeTotalSorted L = rawLengthSum L ↔
      L.Pairwise fun a b => ¬ properOverlap a b := by
  cases L with
  | nil => simp [mergeTotalSorted, rawLengthSum]
  | cons p rest =>
      obtain ⟨s, e⟩ := p
      have hse : s ≤ e := hL (s, e) (List.mem_cons_self _ _)
      have hl' : ∀ q ∈ rest, q.1 ≤ q.2 := fun q hq => hL q (List.mem_cons_of_mem _ hq)
      have hsort' := hsorted.of_cons
      have hsorthead : ∀ q ∈ rest, s ≤ q.1 := fun q hq =>
        (List.pairwise_cons.mp hsorted).1 q hq
      rw [rawLengthSum_cons]
      constructor
      · intro heq
        by_contra hnp
        by_cases hA : ∀ q ∈ rest, ¬ properOverlap (s, e) q
        · have hnp' : ¬ rest.Pairwise (fun a b => ¬ properOverlap a b) := fun hP =>
            hnp (List.pairwise_cons.mpr ⟨hA, hP⟩)
          have := covFrom_lt_of_overlap rest hl' hsort' hnp' s e
          simp only [mergeTotalSorted] at heq
          linarith
        · push_neg at hA
          rcases hA with ⟨q, hq, hov⟩
          have hov' : max s q.1 < min e q.2 := hov
          have hsq : s ≤ q.1 := hsorthead q hq
          have hq1 : q.1 < min e q.2 := by
            rw [max_eq_right hsq] at hov'
            exact hov'
          have := covFrom_lt_of_cross rest hl' hsort' s e ⟨q, hq, hq1⟩
          simp only [mergeTotalSorted] at heq
          linarith
      · intro hpw
        have hovhead := (List.pairwise_cons.mp hpw).1
        have hinv : ∀ q ∈ rest, min e q.2 ≤ q.1 :=
          head_min_inv s e rest hsorthead hovhead
        have := covFrom_eq_raw rest hl' hsort' hpw.of_cons s e hse hinv
        simpa [mergeTotalSorted] using this

theorem rawLengthSum_perm {l₁ l₂ : List (ℚ × ℚ)} (h : List.Perm l₁ l₂) :
    rawLengthSum l₁ = rawLengthSum l₂ := by
  unfold rawLengthSum
  exact (h.map _).sum_eq

/-- C4 (amended): for intervals with start before end, the merged coverage is
at most the sum of the raw lengths, with equality exactly when no two
intervals properly overlap; intervals that merely touch at an endpoint keep
the equality. -/
theorem c4_interval_merger_amended (ivs : List (ℚ × ℚ))
    (h : ∀ p ∈ ivs, p.1 ≤ p.2) :
    mergedCoverage ivs ≤ rawLengthSum ivs ∧
    (mergedCoverage ivs = rawLengthSum ivs ↔
      ivs.Pairwise fun a b => ¬ properOverlap a b) := by
  have hperm := sortByStart_perm ivs
  have hsorted := sortByStart_sorted ivs
  have hmem : ∀ p ∈ sortByStart ivs, p.1 ≤ p.2 := fun p hp => h p (hperm.subset hp)
  have hsum : rawLengthSum (sortByStart ivs) = rawLengthSum ivs := rawLengthSum_perm hperm
  have hpwiff : (sortByStart ivs).Pairwise (fun a b => ¬ properOverlap a b) ↔
      ivs.Pairwise fun a b => ¬ properOverlap a b := by
    refine List.Perm.pairwise_iff ?_ hperm
    intro a b hab hba
    exact hab (properOverlap_symm hba)
  rw [mergedCoverage_eq_mergeTotalSorted, ← hsum, ← hpwiff]
  exact ⟨mergeTotalSorted_le _ hmem, mergeTotalSorted_eq_iff _ hmem hsorted⟩

/-- C4 witness: the amended theorem at the concrete disjoint intervals
`(0, 1)` and `(2, 3)`. -/
theorem c4_interval_merger_witness :
    mergedCoverage [((0 : ℚ), 1), (2, 3)] ≤ rawLengthSum [((0 : ℚ), 1), (2, 3)] ∧
    (mergedCoverage [((0 : ℚ), 1), (2, 3)] = rawLengthSum [((0 : ℚ), 1), (2, 3)] ↔
      List.Pairwise (fun a b => ¬ properOverlap a b) [((0 : ℚ), 1), (2, 3)]) :=
  c4_interval_merger_amended [((0 : ℚ), 1), (2, 3)] (by decide)

/-- C4 counterexample: the intervals `(0, 5)` and `(5, 10)` touch, yet the
merged coverage still equals the raw length sum, refuting the claimed
equivalence with the absence of overlapping or touching intervals. -/
theorem c4_interval_merger_counterexample :
    ¬ (mergedCoverage [((0 : ℚ), 5), (5, 10)] = rawLengthSum [((0 : ℚ), 5), (5, 10)] ↔
      List.Pairwise (fun a b => ¬ touchOrOverlap a b) [((0 : ℚ), 5), (5, 10)]) := by
  intro hiff
  have h1 : mergedCoverage [((0 : ℚ), 5), (5, 10)] = rawLengthSum [((0 : ℚ), 5), (5, 10)] := by
    norm_num [mergedCoverage, mergedIntervals, sortByStart, List.insertionSort,
      List.orderedInsert, startLE, mergeStep, coverage, rawLengthSum, max_def]
  have h3 : touchOrOverlap ((0 : ℚ), 5) ((5 : ℚ), 10) := by
    norm_num [touchOrOverlap]
  rcases List.pairwise_cons.mp (hiff.mp h1) with ⟨hhead, _⟩
  exact hhead _ (List.mem_cons_self _ _) h3

/-- C1 (amended): for every event log, the executor wall clock computed by
the notebook's merge loop equals the Interval Merger total applied to the
`(launch/1000, finish/1000)` pairs of all task-end records having both
timestamps — failed tasks included, since the source does not filter them
out here. -/
theorem c1_executor_wall_clock_amended (events : List EventRecord) :
    compute_executor_wall_clock_time events =
      intervalMergerTotal (taskIntervalPairs events) :=
  mergedCoverage_eq_intervalMergerTotal (taskIntervalPairs events)

/-- C1 counterexample: with one successful task on `[0 s, 1 s]` and one
failed task on `[10 s, 11 s]`, the computed executor wall clock is 2 seconds
while the Interval Merger total over non-failed tasks only is 1 second, so
failed tasks do contribute intervals, refuting the claim. -/
theorem c1_executor_wall_clock_counterexample :
    compute_executor_wall_clock_time exEventsC1 = 2 ∧
    executorWallClockNonFailedSpec exEventsC1 = 1 := by
  constructor
  · norm_num [compute_executor_wall_clock_time, mergedCoverage, mergedIntervals, sortByStart,
      List.insertionSort, List.orderedInsert, startLE, mergeStep, coverage, taskIntervalPairs,
      exEventsC1, exTaskOk, exTaskFailed, max_def]
  · norm_num [executorWallClockNonFailedSpec, intervalMergerTotal, covFrom, sortByStart,
      List.insertionSort, List.orderedInsert, startLE, nonFailedTasks, taskEndsOf,
      exEventsC1, exTaskOk, exTaskFailed]

/-- C2: on a run where no stage has any successful task (here: the only task
failed, while the application lifecycle events are present and the runtime is
100 s), the metric computation evaluates `round(None, 2)` for the critical
path and raises a `TypeError`, so the run is converted into an error row
instead of completing with its 7 metrics. -/
theorem c2_undefined_critical_path_bug :
    compute_stage_task_summary exEventsC2 exMetadataEmpty "appC2" =
      .error "TypeError: NoneType does not define a round method" ∧
    processApp ⟨"appC2", exEventsC2, exMetadataEmpty⟩ =
      .errRow "appC2" "TypeError: NoneType does not define a round method" := by
  have hcrit : criticalPathSecOpt (nonFailedTasks exEventsC2) = none := by
    norm_num [criticalPathSecOpt, nonFailedTasks, taskEndsOf, exEventsC2, exTaskFailed,
      stageIdsOf, sparkSumList, List.filterMap_cons, List.filterMap_nil, List.filter_cons,
      List.filter_nil, List.map_cons, List.map_nil, List.dedup_nil]
  have happ : compute_application_runtime exEventsC2 = 100 := by
    norm_num [compute_application_runtime, firstAppStart, firstAppEnd, exEventsC2]
  have h1 : compute_stage_task_summary exEventsC2 exMetadataEmpty "appC2" =
      .error "TypeError: NoneType does not define a round method" := by
    simp only [compute_stage_task_summary, hcrit, happ, metricsRows]
    norm_num
    rfl
  refine ⟨h1, ?_⟩
  have hstart : firstAppStart exEventsC2 = some 0 := rfl
  simp only [processApp, hstart, h1]

theorem recText4_not_mem_rule1 (dp : ℚ) : recText4 ∉ rule1Recs dp := by
  unfold rule1Recs
  split
  · intro hmem
    exact absurd (List.mem_singleton.mp hmem) (by decide)
  · exact List.not_mem_nil _

theorem recText4_not_mem_rule2 (ep : ℚ) (md : Metadata) : recText4 ∉ rule2Recs ep md := by
  unfold rule2Recs
  cases hne : md.nativeEnabled with
  | none => exact List.not_mem_nil _
  | some v =>
      show recText4 ∉
        (if (v = CfgVal.vBool false ∨ v = CfgVal.vStr "false") ∧ ep > 50
         then [recText2] else [])
      split
      · intro hmem
        exact absurd (List.mem_singleton.mp hmem) (by decide)
      · exact List.not_mem_nil _

theorem recText4_not_mem_rule3 (dp : ℚ) : recText4 ∉ rule3Recs dp := by
  unfold rule3Recs
  split
  · intro hmem
    exact absurd (List.mem_singleton.mp hmem) (by decide)
  · exact List.not_mem_nil _

theorem recText4_mem_rule4 (dp : ℚ) (md : Metadata) :
    recText4 ∈ rule4Recs dp md ↔
      (∃ hv, md.highConcurrencyTag = some hv ∧
        (hv = .vBool false ∨ hv = .vStr "false" ∨ hv = .vNull)) ∧
      md.artifactType = some (.vStr "SynapseNotebook") ∧ dp < 98 := by
  unfold rule4Recs
  rcases hhc : md.highConcurrencyTag with _ | hv <;> rcases hat : md.artifactType with _ | av
  · simp
  · simp
  · simp
  · by_cases hdp : dp < 98
    · simp only [if_pos hdp]
      by_cases hcond : (hv = .vBool false ∨ hv = .vStr "false" ∨ hv = .vNull) ∧
          (some av : Option CfgVal) = some (.vStr "SynapseNotebook")
      · rw [if_pos hcond]
        simp only [List.mem_singleton, Option.some.injEq] at *
        constructor
        · intro _
          exact ⟨⟨hv, rfl, hcond.1⟩, by rw [hcond.2], hdp⟩
        · intro _
          trivial
      · rw [if_neg hcond]
        simp only [List.not_mem_nil, false_iff]
        intro ⟨⟨hv', hhv', hval⟩, hart, _⟩
        apply hcond
        constructor
        · cases Option.some.injEq .. ▸ hhv'
          exact hval
        · rw [Option.some.injEq] at hart ⊢
          exact hart
    · simp only [if_neg hdp]
      have hnone : ((if dp < 98 then some av else none) : Option CfgVal) = none := if_neg hdp
      simp [hnone, hdp]

/-- C3 (amended): the session-sharing advice (rule 4) appears in the produced
recommendations iff the high-concurrency flag column is present with value
false, `"false"` or null, the artifact type column is present with value
`"SynapseNotebook"`, and additionally `driverPct < 98`; it remains independent
of the other rules' firing, but not of `driverPct`. -/
theorem c3_rule4_amended (appId : String) (appDurationSec driverSec executorSec : ℚ)
    (md : Metadata) (rows : List (String × String)) (h0 : appDurationSec ≠ 0)
    (hrows : generate_recommendations appId appDurationSec driverSec executorSec md = .ok rows) :
    ((appId, recText4) ∈ rows ↔
      (∃ hv, md.highConcurrencyTag = some hv ∧
        (hv = .vBool false ∨ hv = .vStr "false" ∨ hv = .vNull)) ∧
      md.artifactType = some (.vStr "SynapseNotebook") ∧
      100 * driverSec / appDurationSec < 98) := by
  rw [← recText4_mem_rule4 (100 * driverSec / appDurationSec) md]
  simp only [generate_recommendations, if_neg h0] at hrows
  set dp := 100 * driverSec / appDurationSec with hdp
  set ep := 100 * executorSec / appDurationSec with hep
  set R := rule1Recs dp ++ rule2Recs ep md ++ rule3Recs dp ++ rule4Recs dp md with hR
  have h1 := recText4_not_mem_rule1 dp
  have h2 := recText4_not_mem_rule2 ep md
  have h3 := recText4_not_mem_rule3 dp
  by_cases hemp : R.isEmpty
  · rw [if_pos hemp] at hrows
    have hrows' : rows = [(appId, recTextDefault)] := by
      injection hrows with h
      exact h.symm
    subst hrows'
    rw [List.isEmpty_iff] at hemp
    constructor
    · intro hmem
      have heq := List.mem_singleton.mp hmem
      have heq' : recText4 = recTextDefault := congrArg Prod.snd heq
      exact absurd heq' (by decide)
    · intro hmem4
      have hmemR : recText4 ∈ R := by
        rw [hR]
        simp only [List.mem_append]
        tauto
      rw [hemp] at hmemR
      exact absurd hmemR (List.not_mem_nil _)
  · rw [if_neg hemp] at hrows
    have hrows' : rows = R.map fun r => (appId, r) := by
      injection hrows with h
      exact h.symm
    subst hrows'
    constructor
    · intro hmem
      rcases List.mem_map.mp hmem with ⟨r, hr, heq⟩
      have hr4 : r = recText4 := congrArg Prod.snd heq
      subst hr4
      rw [hR] at hr
      simp only [List.mem_append] at hr
      tauto
    · intro hmem4
      refine List.mem_map.mpr ⟨recText4, ?_, rfl⟩
      rw [hR]
      simp only [List.mem_append]
      tauto

/-- C3 counterexample: metadata satisfying the claimed firing condition (the
high-concurrency flag present and false, the artifact type an interactive
notebook), yet with `driverPct = 99` rule 4 does not fire — only the
driver-heavy rule does — so the rule is not independent of `driverPct`. -/
theorem c3_rule4_counterexample :
    generate_recommendations "app" 100 99 1 exMetadataC3 = .ok [("app", recText1)] ∧
    exMetadataC3.highConcurrencyTag = some (CfgVal.vBool false) ∧
    exMetadataC3.artifactType = some (CfgVal.vStr "SynapseNotebook") ∧
    ("app", recText4) ∉ [("app", recText1)] := by
  refine ⟨?_, rfl, rfl, ?_⟩
  · norm_num [generate_recommendations, rule1Recs, rule2Recs, rule3Recs, rule4Recs,
      exMetadataC3]
    simp
  · intro hmem
    have heq : recText4 = recText1 := congrArg Prod.snd (List.mem_singleton.mp hmem)
    exact absurd heq (by decide)

/-- C3 witness: the amended theorem at a concrete input with `driverPct = 0`,
where rule 4 does fire. -/
theorem c3_rule4_witness :
    (("w", recText4) ∈ [("w", recText4)] ↔
      (∃ hv, exMetadataC3.highConcurrencyTag = some hv ∧
        (hv = .vBool false ∨ hv = .vStr "false" ∨ hv = .vNull)) ∧
      exMetadataC3.artifactType = some (.vStr "SynapseNotebook") ∧
      100 * (0 : ℚ) / 100 < 98) :=
  c3_rule4_amended "w" 100 0 90 exMetadataC3 [("w", recText4)] (by norm_num)
    (by norm_num [generate_recommendations, rule1Recs, rule2Recs, rule3Recs, rule4Recs,
      exMetadataC3])

/-! ## C5: a zero application runtime fails only its own run -/

theorem except_bind_error_of_mid {α β : Type} (x : Except String α)
    (f : α → Except String β) (h : ∀ a, ∃ e, f a = .error e) :
    ∃ e, x.bind f = .error e := by
  rcases x with e | a
  · exact ⟨e, rfl⟩
  · exact h a

theorem compute_stage_task_summary_error_of_zero (events : List EventRecord)
    (md : Metadata) (appId : String)
    (h0 : compute_application_runtime events = 0) :
    ∃ e, compute_stage_task_summary events md appId = .error e := by
  simp only [compute_stage_task_summary, h0]
  apply except_bind_error_of_mid
  intro preds
  have hm : ∀ (x y : ℚ) (n : ℕ) (copt : Option ℚ),
      metricsRows appId 0 x y n copt =
        .error "ZeroDivisionError: float division by zero" := by
    intro x y n copt
    simp [metricsRows]
  rw [hm]
  exact ⟨_, rfl⟩

/-- C5: for any batch, a processed run (start event present) whose application
runtime is `0.0` fails its own metric computation — the raised division error
is caught and turned into an error row carrying only the id and message, so
no (NaN or infinite) metric row is emitted for it — while the batch output
still has one outcome per application. -/
theorem c5_zero_runtime_isolated (apps : List App) (a : App) (ha : a ∈ apps)
    (h0 : compute_application_runtime a.events = 0)
    (hs : firstAppStart a.events ≠ none) :
    (processApp a).isErrRow = true ∧ (processApp a).metricRows = [] ∧
    processApp a ∈ processBatch apps ∧
    (processBatch apps).length = apps.length := by
  obtain ⟨e, he⟩ := compute_stage_task_summary_error_of_zero a.events a.md a.id h0
  have hpa : processApp a = .errRow a.id e := by
    unfold processApp
    rcases hfs : firstAppStart a.events with _ | ts
    · exact absurd hfs hs
    · simp only [he]
  refine ⟨by rw [hpa]; rfl, by rw [hpa]; rfl, ?_, List.length_map _ _⟩
  exact List.mem_map.mpr ⟨a, ha, rfl⟩

/-- C5 witness: the concrete run with a start event but no end event, alone
in a batch. -/
theorem c5_zero_runtime_witness :
    (processApp exAppC5).isErrRow = true ∧ (processApp exAppC5).metricRows = [] ∧
    processApp exAppC5 ∈ processBatch [exAppC5] ∧
    (processBatch [exAppC5]).length = [exAppC5].length :=
  c5_zero_runtime_isolated [exAppC5] exAppC5 (List.mem_singleton_self _) rfl
    (by intro h
        rw [show firstAppStart exAppC5.events = some 0 from rfl] at h
        exact Option.noConfusion h)

theorem pyTrunc_eq_floor {q : ℚ} (h : 0 ≤ q) : pyTrunc q = ⌊q⌋ := by
  unfold pyTrunc
  rw [if_neg (not_lt.mpr h)]

theorem max_one_pyTrunc_eq_max_one_floor (q : ℚ) : max 1 (pyTrunc q) = max 1 ⌊q⌋ := by
  by_cases h : 0 ≤ q
  · rw [pyTrunc_eq_floor h]
  · push_neg at h
    unfold pyTrunc
    rw [if_pos h]
    have h1 : ⌊q⌋ ≤ 1 := le_trans (Int.floor_nonpos h.le) one_pos.le
    have h2 : -⌊-q⌋ ≤ 1 := by
      have : (0:ℤ) ≤ ⌊-q⌋ := Int.floor_nonneg.mpr (by linarith)
      omega
    rw [max_eq_left h1, max_eq_left h2]

theorem newExecutorsFor_one_le (cur : ℤ) (m : ℚ) : 1 ≤ newExecutorsFor cur m :=
  le_max_left _ _

theorem estimatedExecutorSec_pos (critMs T : ℚ) (n : ℤ)
    (h0 : 0 ≤ critMs) (hT : critMs ≤ T) (hTpos : 0 < T) (hn : 1 ≤ n) :
    0 < estimatedExecutorSec critMs (T - critMs) n := by
  unfold estimatedExecutorSec
  have hnq : (0:ℚ) < (n:ℚ) := by exact_mod_cast lt_of_lt_of_le one_pos hn
  have hpar : (0:ℚ) ≤ (T - critMs) / (n:ℚ) := div_nonneg (by linarith) hnq.le
  have hnum : 0 < critMs + (T - critMs) / (n:ℚ) := by
    by_cases hc : critMs = 0
    · subst hc
      have : (0:ℚ) < (T - 0) / (n:ℚ) := div_pos (by linarith) hnq
      linarith
    · have : 0 < critMs := lt_of_le_of_ne h0 (Ne.symm hc)
      linarith
  exact div_pos hnum (by norm_num)

theorem scalingRow_eq_ok (critMs T driverSec : ℚ) (cur : ℤ) (m : ℚ)
    (h0 : 0 ≤ critMs) (hT : critMs ≤ T) (hTpos : 0 < T) (hd : 0 ≤ driverSec) :
    scalingRow critMs (T - critMs) driverSec cur m =
      .ok (scalingRowVal critMs (T - critMs) driverSec cur m) := by
  have hest := estimatedExecutorSec_pos critMs T (newExecutorsFor cur m) h0 hT hTpos
    (newExecutorsFor_one_le cur m)
  unfold scalingRow
  rw [if_neg (by intro hcontra; linarith)]

theorem mapM_ok_of_pointwise {α β : Type} (l : List α) (f : α → Except String β)
    (g : α → β) (h : ∀ a ∈ l, f a = .ok (g a)) : l.mapM f = .ok (l.map g) := by
  induction l with
  | nil => rfl
  | cons a t ih =>
      rw [List.mapM_cons, h a (List.mem_cons_self _ _),
        ih fun b hb => h b (List.mem_cons_of_mem _ hb)]
      rfl

/-- C6 (amended): when the total task time is null, `estimate_runtime_scaling`
raises a `TypeError` (instead of returning an empty result set); when it is
present and zero, or the executor wall clock is zero, the predictor returns
the empty result set; otherwise, for inputs arising from a task set
(`0 < totalTaskTimeMs`, `0 ≤ criticalPathMs ≤ totalTaskTimeMs`, positive
executor wall clock, nonnegative driver wall clock), it returns exactly 5
rows, one per multiplier, each with
`newExecutors = max(1, floor(currentExecutors * m))`. -/
theorem c6_scaling_predictor_amended (tasks : List TaskEvent)
    (executorSec driverSec criticalSec : ℚ) (cur : ℤ) :
    (sparkSumList (tasks.map TaskEvent.runTimeMs) = none →
      estimate_runtime_scaling tasks executorSec driverSec cur criticalSec =
        .error "TypeError: unsupported operand type for NoneType minus float") ∧
    (∀ T, sparkSumList (tasks.map TaskEvent.runTimeMs) = some T →
      (T = 0 ∨ executorSec = 0) →
      estimate_runtime_scaling tasks executorSec driverSec cur criticalSec = .ok []) ∧
    (∀ T, sparkSumList (tasks.map TaskEvent.runTimeMs) = some T →
      0 < T → 0 ≤ criticalSec * 1000 → criticalSec * 1000 ≤ T →
      0 < executorSec → 0 ≤ driverSec →
      ∃ rows, estimate_runtime_scaling tasks executorSec driverSec cur criticalSec =
          .ok rows ∧ rows.length = 5 ∧
        rows.map PredRow.executorCount =
          scalingMultipliers.map fun m => max 1 ⌊(cur : ℚ) * m⌋) := by
  refine ⟨?_, ?_, ?_⟩
  · intro h
    simp only [estimate_runtime_scaling, h]
  · intro T hT hz
    simp only [estimate_runtime_scaling, hT]
    rw [if_pos hz]
  · intro T hT hTpos hc0 hcT hex hd
    refine ⟨scalingMultipliers.map
      (scalingRowVal (criticalSec * 1000) (T - criticalSec * 1000) driverSec cur),
      ?_, by simp [scalingMultipliers], ?_⟩
    · simp only [estimate_runtime_scaling, hT]
      rw [if_neg (by push_neg; exact ⟨ne_of_gt hTpos, ne_of_gt hex⟩),
        if_neg (by intro hcontra; linarith)]
      exact mapM_ok_of_pointwise _ _ _ fun m _ =>
        scalingRow_eq_ok (criticalSec * 1000) T driverSec cur m hc0 hcT hTpos hd
    · rw [List.map_map]
      refine List.map_congr_left fun m _ => ?_
      show max 1 (pyTrunc ((cur : ℚ) * m)) = max 1 ⌊(cur : ℚ) * m⌋
      exact max_one_pyTrunc_eq_max_one_floor _

/-- C6 witness: the third part of the amended theorem at one successful task
with run time 1000 ms, wall clock 10 s, 2 current executors. -/
theorem c6_scaling_predictor_witness :
    ∃ rows, estimate_runtime_scaling [exTaskOk] 10 0 2 (1 / 2) = .ok rows ∧
      rows.length = 5 ∧
      rows.map PredRow.executorCount =
        scalingMultipliers.map fun m => max 1 ⌊((2 : ℤ) : ℚ) * m⌋ :=
  (c6_scaling_predictor_amended [exTaskOk] 10 0 (1 / 2) 2).2.2 1000
    (by simp [sparkSumList, exTaskOk, List.filterMap_cons, List.filterMap_nil])
    (by norm_num) (by norm_num) (by norm_num)
    (by norm_num) (by norm_num)

/-- C7: with `0 ≤ criticalPathMs ≤ totalTaskTimeMs` and at least one current
executor, the estimated executor seconds
`(criticalPathMs + parallelizableMs / newExecutors) / 1000` is non-increasing
as the multiplier increases through the fixed multiplier list. -/
theorem c7_est_monotone (cur : ℤ) (criticalPathMs totalTaskTimeMs : ℚ)
    (hcur : 1 ≤ cur) (h0 : 0 ≤ criticalPathMs) (hT : criticalPathMs ≤ totalTaskTimeMs)
    (m₁ m₂ : ℚ) (h₁ : m₁ ∈ scalingMultipliers) (h₂ : m₂ ∈ scalingMultipliers)
    (hm : m₁ ≤ m₂) :
    estimatedExecutorSec criticalPathMs (totalTaskTimeMs - criticalPathMs)
        (newExecutorsFor cur m₂) ≤
      estimatedExecutorSec criticalPathMs (totalTaskTimeMs - criticalPathMs)
        (newExecutorsFor cur m₁) := by
  have hall : ∀ m ∈ scalingMultipliers, (1 : ℚ) ≤ m := by
    intro m hmem
    simp only [scalingMultipliers, List.mem_cons, List.not_mem_nil, or_false] at hmem
    rcases hmem with rfl | rfl | rfl | rfl | rfl <;> norm_num
  have h1m := hall m₁ h₁
  have h2m := hall m₂ h₂
  have hcurq : (1 : ℚ) ≤ (cur : ℚ) := by exact_mod_cast hcur
  have hx1 : (1 : ℚ) ≤ (cur : ℚ) * m₁ := by nlinarith
  have hx2 : (1 : ℚ) ≤ (cur : ℚ) * m₂ := by nlinarith
  have hmono : (cur : ℚ) * m₁ ≤ (cur : ℚ) * m₂ := by nlinarith
  have hn1 : newExecutorsFor cur m₁ = ⌊(cur : ℚ) * m₁⌋ := by
    unfold newExecutorsFor
    rw [pyTrunc_eq_floor (by linarith)]
    exact max_eq_right (Int.le_floor.mpr (by exact_mod_cast hx1))
  have hn2 : newExecutorsFor cur m₂ = ⌊(cur : ℚ) * m₂⌋ := by
    unfold newExecutorsFor
    rw [pyTrunc_eq_floor (by linarith)]
    exact max_eq_right (Int.le_floor.mpr (by exact_mod_cast hx2))
  have hf1 : (1 : ℤ) ≤ ⌊(cur : ℚ) * m₁⌋ := Int.le_floor.mpr (by exact_mod_cast hx1)
  have hfloorle : ⌊(cur : ℚ) * m₁⌋ ≤ ⌊(cur : ℚ) * m₂⌋ := Int.floor_le_floor hmono
  unfold estimatedExecutorSec
  rw [hn1, hn2]
  have hq1 : (0 : ℚ) < (⌊(cur : ℚ) * m₁⌋ : ℚ) := by exact_mod_cast lt_of_lt_of_le one_pos hf1
  have hq12 : ((⌊(cur : ℚ) * m₁⌋ : ℤ) : ℚ) ≤ ((⌊(cur : ℚ) * m₂⌋ : ℤ) : ℚ) := by
    exact_mod_cast hfloorle
  have hpar : 0 ≤ totalTaskTimeMs - criticalPathMs := by linarith
  gcongr

/-- C7 witness: the monotonicity theorem at 1 executor, no critical path,
1000 ms total task time, multipliers 1 and 2. -/
theorem c7_est_monotone_witness :
    estimatedExecutorSec 0 (1000 - 0) (newExecutorsFor 1 2) ≤
      estimatedExecutorSec 0 (1000 - 0) (newExecutorsFor 1 1) :=
  c7_est_monotone 1 0 1000 le_rfl le_rfl (by norm_num) 1 2
    (by norm_num [scalingMultipliers]) (by norm_num [scalingMultipliers]) (by norm_num)

/-- C6 counterexample: with an empty task set the total task time is absent
(null), and the predictor raises a `TypeError` at the subtraction
`total_task_time_ms - critical_path_ms` instead of returning the claimed
empty result set without exception. -/
theorem c6_scaling_predictor_counterexample :
    estimate_runtime_scaling [] 1 0 1 1 =
      .error "TypeError: unsupported operand type for NoneType minus float" := by
  simp [estimate_runtime_scaling, sparkSumList]

theorem filterMap_sum_cons {α : Type} (f : α → Option ℚ) (x : α) (l : List α) :
    ((x :: l).filterMap f).sum = (f x).getD 0 + (l.filterMap f).sum := by
  cases hfx : f x <;> simp [List.filterMap_cons, hfx]

theorem sum_map_add {β : Type} (l : List β) (f g : β → ℚ) :
    (l.map fun b => f b + g b).sum = (l.map f).sum + (l.map g).sum := by
  induction l with
  | nil => simp
  | cons b t ih =>
      simp only [List.map_cons, List.sum_cons, ih]
      ring

theorem sum_ite_key {β : Type} [DecidableEq β] (ks : List β) (b : β) (v : ℚ)
    (hnd : ks.Nodup) (hb : b ∈ ks) :
    (ks.map fun k => if b = k then v else 0).sum = v := by
  induction ks with
  | nil => exact absurd hb (List.not_mem_nil _)
  | cons k t ih =>
      rcases List.mem_cons.mp hb with rfl | hbt
      · simp only [List.map_cons, List.sum_cons, if_pos rfl]
        have hnot : b ∉ t := (List.nodup_cons.mp hnd).1
        have hzero : (t.map fun k => if b = k then v else 0).sum = 0 := by
          apply List.sum_eq_zero
          intro y hy
          rcases List.mem_map.mp hy with ⟨k', hk', rfl⟩
          rw [if_neg]
          intro h
          exact hnot (h ▸ hk')
        rw [hzero]
        simp
      · have hnd' := (List.nodup_cons.mp hnd).2
        have hbk : b ≠ k := fun h => (List.nodup_cons.mp hnd).1 (h ▸ hbt)
        simp only [List.map_cons, List.sum_cons, if_neg hbk, ih hnd' hbt]
        ring

theorem partition_filterMap_sum {α β : Type} [DecidableEq β] (key : α → β)
    (f : α → Option ℚ) :
    ∀ (l : List α) (ks : List β), ks.Nodup → (∀ x ∈ l, key x ∈ ks) →
      (ks.map fun k => ((l.filter fun x => key x = k).filterMap f).sum).sum =
        (l.filterMap f).sum := by
  intro l
  induction l with
  | nil =>
      intro ks _ _
      simp [List.filter_nil]
  | cons x t ih =>
      intro ks hnd hcov
      have hx : key x ∈ ks := hcov x (List.mem_cons_self _ _)
      have hcov' : ∀ y ∈ t, key y ∈ ks := fun y hy => hcov y (List.mem_cons_of_mem _ hy)
      have hterm : ∀ k ∈ ks,
          (((x :: t).filter fun y => key y = k).filterMap f).sum =
            (if key x = k then (f x).getD 0 else 0) +
              ((t.filter fun y => key y = k).filterMap f).sum := by
        intro k _
        by_cases hk : key x = k
        · rw [List.filter_cons_of_pos (by simpa using hk), filterMap_sum_cons, if_pos hk]
        · rw [List.filter_cons_of_neg (by simpa using hk), if_neg hk, zero_add]
      calc (ks.map fun k => (((x :: t).filter fun y => key y = k).filterMap f).sum).sum
          = (ks.map fun k => (if key x = k then (f x).getD 0 else 0) +
              ((t.filter fun y => key y = k).filterMap f).sum).sum := by
            exact congrArg List.sum (List.map_congr_left hterm)
        _ = (ks.map fun k => if key x = k then (f x).getD 0 else 0).sum +
            (ks.map fun k => ((t.filter fun y => key y = k).filterMap f).sum).sum :=
            sum_map_add _ _ _
        _ = (f x).getD 0 + (t.filterMap f).sum := by
            rw [sum_ite_key ks (key x) _ hnd hx, ih ks hnd hcov']
        _ = ((x :: t).filterMap f).sum := (filterMap_sum_cons _ _ _).symm

theorem foldl_max_le_sum (t : List ℚ) :
    ∀ d : ℚ, 0 ≤ d → (∀ x ∈ t, 0 ≤ x) → t.foldl max d ≤ d + t.sum := by
  induction t with
  | nil =>
      intro d _ _
      simp
  | cons x s ih =>
      intro d hd hx
      have hx0 : 0 ≤ x := hx x (List.mem_cons_self _ _)
      have hrec := ih (max d x) (le_trans hd (le_max_left _ _))
        fun y hy => hx y (List.mem_cons_of_mem _ hy)
      have hmax : max d x ≤ d + x := max_le (by linarith) (by linarith)
      simp only [List.foldl_cons, List.sum_cons]
      linarith

theorem sparkMax_getD_le_sum (ds : List ℚ) (h : ∀ x ∈ ds, 0 ≤ x) :
    (sparkMaxList ds).getD 0 ≤ ds.sum := by
  cases ds with
  | nil => simp [sparkMaxList]
  | cons d t =>
      simp only [sparkMaxList, Option.getD_some, List.sum_cons]
      exact foldl_max_le_sum t d (h d (List.mem_cons_self _ _))
        fun x hx => h x (List.mem_cons_of_mem _ hx)

theorem filterMap_id_sum (l : List (Option ℚ)) :
    (l.filterMap id).sum = (l.map fun o => o.getD 0).sum := by
  induction l with
  | nil => rfl
  | cons o t ih => cases o <;> simp [List.filterMap_cons, ih]

theorem stageDurations_nonneg (ts : List TaskEvent)
    (hnn : ∀ t ∈ ts, ∀ r, t.runTimeMs = some r → 0 ≤ r) (s : ℤ) :
    ∀ x ∈ stageDurations ts s, 0 ≤ x := by
  intro x hx
  unfold stageDurations at hx
  rcases List.mem_filterMap.mp hx with ⟨t, ht, hdt⟩
  have hts : t ∈ ts := List.mem_of_mem_filter ht
  unfold durationSec at hdt
  rcases hrun : t.runTimeMs with _ | r
  · rw [hrun] at hdt
    exact absurd hdt (by simp)
  · rw [hrun] at hdt
    have hr : r / 1000 = x := by simpa using hdt
    have := hnn t hts r hrun
    rw [← hr]
    positivity

/-- C8: the critical path — the null-ignoring sum over stages of the maximum
task duration among the non-failed tasks — is at most the sum of all
non-failed tasks' durations, whenever the present run times are
nonnegative. -/
theorem c8_critical_path_le (events : List EventRecord) (c : ℚ)
    (hc : criticalPathSecOpt (nonFailedTasks events) = some c)
    (hnn : ∀ t ∈ nonFailedTasks events, ∀ r, t.runTimeMs = some r → 0 ≤ r) :
    c ≤ ((nonFailedTasks events).filterMap durationSec).sum := by
  set ts := nonFailedTasks events with hts
  have hcsum : c = (((stageIdsOf ts).map fun s =>
      sparkMaxList (stageDurations ts s)).filterMap id).sum := by
    unfold criticalPathSecOpt sparkSumList at hc
    rcases hfm : ((stageIdsOf ts).map fun s =>
        sparkMaxList (stageDurations ts s)).filterMap id with _ | ⟨x, xs⟩
    · rw [hfm] at hc
      exact absurd hc (by simp)
    · rw [hfm] at hc
      have := Option.some_inj.mp hc
      rw [← this]
      simp
  rw [hcsum, filterMap_id_sum, List.map_map]
  have hstep : ((stageIdsOf ts).map
      ((fun o : Option ℚ => o.getD 0) ∘ fun s => sparkMaxList (stageDurations ts s))).sum ≤
      ((stageIdsOf ts).map fun s => (stageDurations ts s).sum).sum := by
    apply List.sum_le_sum
    intro s _
    exact sparkMax_getD_le_sum _ (stageDurations_nonneg ts hnn s)
  refine le_trans hstep (le_of_eq ?_)
  exact partition_filterMap_sum TaskEvent.stageId durationSec ts (stageIdsOf ts)
    (List.nodup_dedup _) fun t ht => List.mem_dedup.mpr (List.mem_map_of_mem _ ht)

/-- C8 witness: at the one-successful-task run, the critical path of 1 second
is bounded by the total task time of 1 second. -/
theorem c8_critical_path_le_witness :
    (1 : ℚ) ≤ ((nonFailedTasks exEventsOk).filterMap durationSec).sum :=
  c8_critical_path_le exEventsOk 1
    (by norm_num [criticalPathSecOpt, nonFailedTasks, taskEndsOf, exEventsOk, exTaskOk,
      stageIdsOf, stageDurations, durationSec, sparkMaxList, sparkSumList,
      List.filterMap_cons, List.filterMap_nil, List.filter_cons, List.filter_nil,
      List.map_cons, List.map_nil, List.dedup_cons_of_not_mem, List.dedup_nil])
    (by
      intro t ht r hr
      simp only [nonFailedTasks, taskEndsOf, exEventsOk, exTaskOk, List.filterMap_cons,
        List.filterMap_nil, List.filter_cons, List.filter_nil] at ht
      norm_num at ht
      subst ht
      simp only [exTaskOk, Option.some.injEq] at hr
      norm_num [← hr])

/-- C9: the reported stage summary has at most 5 rows — exactly
`min 5 (number of groups)` — is sorted descending by stage execution window
(nulls last), and every kept row's window is at least every dropped row's
window: exactly the top 5 are kept. -/
theorem c9_top5_summary (events : List EventRecord) :
    (finalSummary events).length ≤ 5 ∧
    (finalSummary events).length = min 5 (stageSummaryRows events).length ∧
    List.Sorted stageGE (finalSummary events) ∧
    ∀ a ∈ finalSummary events,
      ∀ b ∈ ((stageSummaryRows events).insertionSort stageGE).drop 5, stageGE a b := by
  have hsorted : List.Sorted stageGE ((stageSummaryRows events).insertionSort stageGE) :=
    List.sorted_insertionSort stageGE _
  have hperm := List.perm_insertionSort stageGE (stageSummaryRows events)
  have hlen : (finalSummary events).length = min 5 (stageSummaryRows events).length := by
    unfold finalSummary
    rw [List.length_take, hperm.length_eq]
  refine ⟨by rw [hlen]; exact min_le_left _ _, hlen, ?_, ?_⟩
  · exact hsorted.sublist (List.take_sublist 5 _)
  · intro a ha b hb
    have hp := hsorted
    rw [← List.take_append_drop 5 ((stageSummaryRows events).insertionSort stageGE)] at hp
    exact (List.pairwise_append.mp hp).2.2 a ha b hb

/-- C10: in every stage summary row produced by the aggregator, the
successful-task count equals the task count and the failed-task count is
zero, because the per-stage groups are built from tasks already filtered to
`failed == false`. -/
theorem c10_counts_invariant (events : List EventRecord) (row : StageRow)
    (hrow : row ∈ stageSummaryRows events) :
    row.successfulTasks = row.numTasks ∧ row.failedTasks = 0 := by
  unfold stageSummaryRows at hrow
  rcases List.mem_map.mp hrow with ⟨k, hk, rfl⟩
  have hall : ∀ t ∈ stageGroup (nonFailedTasks events) k, t.failed = false := by
    intro t ht
    have hts : t ∈ nonFailedTasks events := List.mem_of_mem_filter ht
    unfold nonFailedTasks at hts
    have hb := List.of_mem_filter hts
    simpa using hb
  have hsucc : (stageGroup (nonFailedTasks events) k).filter (fun t => t.failed = false) =
      stageGroup (nonFailedTasks events) k :=
    List.filter_eq_self.mpr fun t ht => by simp [hall t ht]
  have hfail : (stageGroup (nonFailedTasks events) k).filter (fun t => t.failed = true) =
      [] :=
    List.filter_eq_nil_iff.mpr fun t ht => by simp [hall t ht]
  constructor
  · show ((stageGroup (nonFailedTasks events) k).filter fun t => t.failed = false).length =
      (stageGroup (nonFailedTasks events) k).length
    rw [hsucc]
  · show ((stageGroup (nonFailedTasks events) k).filter fun t => t.failed = true).length = 0
    rw [hfail]
    rfl

/-- C9 witness: the top-5 bound at the one-task run. -/
theorem c9_top5_summary_witness :
    (finalSummary exEventsOk).length ≤ 5 :=
  (c9_top5_summary exEventsOk).1

/-- C10 witness: the counts invariant at the one-task run's single row. -/
theorem c10_counts_invariant_witness :
    (mkStageRow (nonFailedTasks exEventsOk) (0, 0)).successfulTasks =
      (mkStageRow (nonFailedTasks exEventsOk) (0, 0)).numTasks ∧
    (mkStageRow (nonFailedTasks exEventsOk) (0, 0)).failedTasks = 0 :=
  c10_counts_invariant exEventsOk _ (by
    simp [stageSummaryRows, stageKeysOf, nonFailedTasks, taskEndsOf, exEventsOk, exTaskOk,
      List.filterMap_cons, List.filterMap_nil, List.filter_cons, List.filter_nil,
      List.map_cons, List.map_nil, List.dedup_cons_of_not_mem, List.dedup_nil])
